import Mathlib

/-!
Formal model of the ThoughtNebula layout and search-orchestration code.

The source is a TypeScript/React application.  Numeric values are modelled
as rationals (`ℚ`); the transcendental primitives of the source
(`Math.sqrt` via `Vector3.length`, `Math.sin` inside the seeded random,
`Math.exp` and `Math.pow(·, 0.3)` inside the shape warp) are abstracted as
function parameters, constrained in theorems by exactly the algebraic facts
those primitives satisfy (for instance a `len` parameter with `0 ≤ len v`
and `(len v)^2 = ‖v‖²` models `Vector3.length`).  All definitions are
computable so that theorems can be instantiated and evaluated on concrete
inputs.
-/

/-- A 3D vector with rational coordinates, modelling `THREE.Vector3`. -/
structure Vec3 where
  x : ℚ
  y : ℚ
  z : ℚ
deriving DecidableEq

instance : Add Vec3 := ⟨fun a b => ⟨a.x + b.x, a.y + b.y, a.z + b.z⟩⟩
instance : Sub Vec3 := ⟨fun a b => ⟨a.x - b.x, a.y - b.y, a.z - b.z⟩⟩
instance : Neg Vec3 := ⟨fun a => ⟨-a.x, -a.y, -a.z⟩⟩
instance : Zero Vec3 := ⟨⟨0, 0, 0⟩⟩
instance : SMul ℚ Vec3 := ⟨fun c v => ⟨c * v.x, c * v.y, c * v.z⟩⟩

/-- Squared Euclidean length, `v.lengthSq()` in three.js. -/
def normSq (v : Vec3) : ℚ := v.x ^ 2 + v.y ^ 2 + v.z ^ 2

/-- Model of `THREE.Vector3.normalize()`, which divides by `length() || 1`
(so the zero vector is left unchanged).  The square root inside `length()`
is abstracted as the function parameter `len`. -/
def normalize3 (len : Vec3 → ℚ) (v : Vec3) : Vec3 :=
  (1 / (if len v = 0 then 1 else len v)) • v

/-- The property that a function `len` agrees with the Euclidean length on
a particular vector (the contract of `Vector3.length`). -/
def IsLen (len : Vec3 → ℚ) (v : Vec3) : Prop :=
  0 ≤ len v ∧ (len v) ^ 2 = normSq v

/-- Model of the inline `seededRandom` of `fitPoints`:
`x = sin(seed * 12.9898 + 78.233) * 43758.5453; return x - floor(x)`.
The sine is abstracted as `sinF`. -/
def seededRandom (sinF : ℚ → ℚ) (seed : ℚ) : ℚ :=
  Int.fract (sinF (seed * 12.9898 + 78.233) * 43758.5453)

/-- Componentwise minimum of a point list (as in `Box3.setFromPoints`);
the code only evaluates this on non-empty lists. -/
def boxMin : List Vec3 → Vec3
  | [] => ⟨0, 0, 0⟩
  | p :: rest => rest.foldl (fun a q => ⟨min a.x q.x, min a.y q.y, min a.z q.z⟩) p

/-- Componentwise maximum of a point list (as in `Box3.setFromPoints`). -/
def boxMax : List Vec3 → Vec3
  | [] => ⟨0, 0, 0⟩
  | p :: rest => rest.foldl (fun a q => ⟨max a.x q.x, max a.y q.y, max a.z q.z⟩) p

/-- Box center, `box.getCenter` in the source. -/
def boxCenter (ps : List Vec3) : Vec3 := (1 / 2 : ℚ) • (boxMin ps + boxMax ps)

/-- Box size, `box.getSize` in the source. -/
def boxSize (ps : List Vec3) : Vec3 := boxMax ps - boxMin ps

/-- Largest box dimension with the `|| 1` guard of the source:
`Math.max(size.x, size.y, size.z) || 1`. -/
def boxMaxDim (ps : List Vec3) : ℚ :=
  let s := boxSize ps
  let m := max s.x (max s.y s.z)
  if m = 0 then 1 else m

/-- The pre-normalization of `fitPoints`:
`original.clone().sub(center).divideScalar(maxDim / 2)`. -/
def normalizePoint (ps : List Vec3) (p : Vec3) : Vec3 :=
  (2 / boxMaxDim ps) • (p - boxCenter ps)

/-- The raw (pre-normalization) seeded pseudo-random push direction of
`fitPoints`, a pure function of the point index.  `rnd n` models
`seededRandom(n)`. -/
def rawDir (rnd : ℕ → ℚ) (index : ℕ) : Vec3 :=
  ⟨rnd (index * 3) * 2 - 1, rnd (index * 3 + 1) * 2 - 1, rnd (index * 3 + 2) * 2 - 1⟩

/-- The displaced position used by `fitPoints` for near-origin points: a
seeded pseudo-random unit direction (keyed only by the point index through
`rnd`) scaled by `0.05 + rnd(index*7) * 0.1`. -/
def displacedPoint (len : Vec3 → ℚ) (rnd : ℕ → ℚ) (index : ℕ) : Vec3 :=
  let pushDir := normalize3 len (rawDir rnd index)
  (0.05 + rnd (index * 7) * 0.1) • pushDir

/-- The per-point radial adjustment of `fitPoints` applied to the
normalized position: clamp to radius 0.95 when `length > 0.95`, displace
outward when `length < 0.05` (both tests read the length computed before
any modification, as in the source). -/
def adjustNormalized (len : Vec3 → ℚ) (rnd : ℕ → ℚ) (index : ℕ) (normalized : Vec3) : Vec3 :=
  let length := len normalized
  let v1 := if length > 0.95 then (0.95 : ℚ) • normalize3 len normalized else normalized
  if length < 0.05 then displacedPoint len rnd index else v1

/-- A labelled point, `NeuronPoint` in the source. -/
structure NeuronPoint where
  text : String
  position : Vec3
  embedding : List ℚ
deriving DecidableEq

/-- A scored point, `SearchResult` in the source. -/
structure SearchResult extends NeuronPoint where
  similarity : ℚ
deriving DecidableEq

/-- The affine map into ellipsoid space at the end of `fitPoints`:
`normalized.{x,y,z} * innerAxesMargin.{x,y,z} + innerCenter.{x,y,z}`. -/
def ellipsoidMap (axes center v : Vec3) : Vec3 :=
  ⟨v.x * axes.x + center.x, v.y * axes.y + center.y, v.z * axes.z + center.z⟩

/-- `brainPlacement`: scale, offset and half-extents derived from the
brain mesh, or the fixed default when no mesh is available. -/
structure Placement where
  scale : ℚ
  offset : Vec3
  halfSize : Vec3
deriving DecidableEq

/-- The `brainPlacement` value when `brainObject` is null:
`{ scale: 1, offset: (0,0,0), halfSize: (55,55,55) }`. -/
def defaultBrainPlacement : Placement := ⟨1, ⟨0, 0, 0⟩, ⟨55, 55, 55⟩⟩

def innerScale : ℚ := 0.66

def innerShapeAdjust : Vec3 := ⟨1.30, 0.75, 1.2⟩

def innerOffset : Vec3 := ⟨-2, 18, 0⟩

/-- `innerAxes = halfSize * innerScale * innerShapeAdjust` (componentwise). -/
def innerAxes (pl : Placement) : Vec3 :=
  ⟨pl.halfSize.x * innerScale * innerShapeAdjust.x,
   pl.halfSize.y * innerScale * innerShapeAdjust.y,
   pl.halfSize.z * innerScale * innerShapeAdjust.z⟩

/-- `innerAxesMargin = innerAxes * 0.95`. -/
def innerAxesMargin (pl : Placement) : Vec3 := (0.95 : ℚ) • innerAxes pl

/-- `innerCenter = brainPlacement.offset.negate() + innerOffset`. -/
def innerCenter (pl : Placement) : Vec3 := -pl.offset + innerOffset

/-- Normalized squared ellipsoid coordinate of a point relative to the
container (value `≤ 1` means the point is inside the ellipsoid). -/
def ellipsoidNormSq (axes center v : Vec3) : ℚ :=
  ((v.x - center.x) / axes.x) ^ 2 + ((v.y - center.y) / axes.y) ^ 2 +
    ((v.z - center.z) / axes.z) ^ 2

/-- Model of the `fitPoints` memo of `Scene`.  `hasBrain` is whether
`brainObject` is non-null; when it is null the source returns
`galaxyPoints` unchanged.  `axesMargin`/`center` are the
`innerAxesMargin`/`innerCenter` values in scope. -/
def fitPoints (hasBrain : Bool) (len : Vec3 → ℚ) (rnd : ℕ → ℚ)
    (axesMargin center : Vec3) (galaxyPoints : List NeuronPoint) : List NeuronPoint :=
  if hasBrain = false then galaxyPoints
  else if galaxyPoints.length = 0 then galaxyPoints
  else
    let originalPositions := galaxyPoints.map (fun p => p.position)
    galaxyPoints.mapIdx (fun index p =>
      let normalized := normalizePoint originalPositions p.position
      let adjusted := adjustNormalized len rnd index normalized
      let scaled := (0.97 : ℚ) • adjusted
      { p with position := ellipsoidMap axesMargin center scaled })

/-- Model of `warpToBrainShape`.  `expF` abstracts `Math.exp`, `pow03`
abstracts `t ↦ Math.pow(t, 0.3)` (applied only to non-negative arguments),
`randomNeg` is the `Math.random() < 0.5` draw of the tie-break.  The
source computes `rXZ = sqrt(x*x + z*z)` and then uses only `rXZ * rXZ`,
which equals `x*x + z*z`; the model uses the squared form directly. -/
def warpToBrainShape (expF pow03 : ℚ → ℚ) (randomNeg : Bool) (p : Vec3) : Vec3 :=
  let y1 := p.y * 1.4
  let z1 := p.z * 0.7
  let signX : ℚ := if p.x > 0 then 1 else if p.x < 0 then -1 else (if randomNeg then -1 else 1)
  let depthFactor := pow03 |z1|
  let x1 := p.x * 0.6 + signX * 0.5 * depthFactor
  let rSq := x1 * x1 + z1 * z1
  let bulge := 1 + 0.3 * expF (-rSq * 0.5)
  ⟨x1, y1 * bulge, z1⟩

/-- JavaScript-style trim on a character list (used to model
`String.prototype.trim`, which strips leading and trailing whitespace). -/
def jsTrimChars (cs : List Char) : List Char :=
  ((cs.dropWhile Char.isWhitespace).reverse.dropWhile Char.isWhitespace).reverse

/-- Whether a query string is blank, modelling the falsiness test
`!q.trim()` of the source. -/
def isBlank (q : String) : Bool := (jsTrimChars q.data).isEmpty

/-- Split a character list at newline characters, modelling
`String.prototype.split("\n")`. -/
def splitNewline : List Char → List (List Char)
  | [] => [[]]
  | c :: rest =>
    if c = '\n' then [] :: splitNewline rest
    else
      match splitNewline rest with
      | [] => [[c]]
      | l :: ls => (c :: l) :: ls

/-- The sentence list of `handleGenerateGalaxy`:
`textInput.split("\n").map(s => s.trim()).filter(Boolean)`. -/
def sentencesOf (textInput : String) : List String :=
  ((splitNewline textInput.data).map (fun cs => String.mk (jsTrimChars cs))).filter
    (fun s => !s.isEmpty)

/-- External collaborators of the search scheduler: the embedding
subsystem (`embed`, which can fail), the cosine-similarity primitive
(`cos_sim`), the current point set and the model-ready flag.  These are
captured by the `processQueue` closure in the source. -/
structure SchedulerEnv where
  embedF : String → Except Unit (List ℚ)
  cosF : List ℚ → List ℚ → ℚ
  points : List NeuronPoint
  isReady : Bool

/-- The mutable state driven by the `processQueue` scheduler:
`pendingQuery` and `isSearching` refs, the `searchResults` and
`lastQueryEmbedding` slots, plus two ghost observables — the ordered log
of queries whose asynchronous similarity run was started, and the number
of completed runs. -/
structure SchedState where
  pending : Option String
  searching : Bool
  active : Option String
  results : List SearchResult
  lastQE : Option (List ℚ)
  runsStarted : List String
  runsCompleted : Nat
deriving DecidableEq

/-- Relation ordering search results by non-increasing similarity, the
comparator `(a, b) => b.similarity - a.similarity` of the source. -/
def simGE (a b : SearchResult) : Prop := b.similarity ≤ a.similarity

instance : DecidableRel simGE := fun a b =>
  inferInstanceAs (Decidable (b.similarity ≤ a.similarity))

instance : IsTotal SearchResult simGE := ⟨fun a b => le_total b.similarity a.similarity⟩

instance : IsTrans SearchResult simGE := ⟨fun _ _ _ h1 h2 => le_trans h2 h1⟩

/-- The result list built by a successful run:
`galaxyPoints.map(point => ({...point, similarity: cos_sim(queryEmbedding,
point.embedding)})).sort((a, b) => b.similarity - a.similarity)`.
JavaScript `Array.prototype.sort` is stable, as is insertion sort. -/
def computeResults (cosF : List ℚ → List ℚ → ℚ) (e : List ℚ)
    (points : List NeuronPoint) : List SearchResult :=
  List.insertionSort simGE
    (points.map (fun p => { toNeuronPoint := p, similarity := cosF e p.embedding }))

/-- Whether a dequeued query actually starts an asynchronous similarity
run (the negation of the early-exit test
`!queryToRun.trim() || !isReady || galaxyPoints.length === 0`). -/
def runnableQ (env : SchedulerEnv) (q : String) : Prop :=
  ¬(isBlank q = true ∨ env.isReady = false ∨ env.points = [])

instance (env : SchedulerEnv) (q : String) : Decidable (runnableQ env q) :=
  inferInstanceAs (Decidable ¬_)

/-- The synchronous part of `processQueue`: return if a run is in flight
or no query is pending; otherwise dequeue the pending query (clearing the
slot).  A blank query / unready model / empty point set completes
synchronously, clearing the results and the stored query embedding;
otherwise an asynchronous similarity run is started (recorded in
`runsStarted`, completed later by `processQueueComplete`). -/
def processQueueStart (env : SchedulerEnv) (s : SchedState) : SchedState :=
  if s.searching then s
  else
    match s.pending with
    | none => s
    | some q =>
      if isBlank q = true ∨ env.isReady = false ∨ env.points = [] then
        { s with pending := none, searching := false, results := [], lastQE := none }
      else
        { s with pending := none, searching := true, active := some q,
                 runsStarted := s.runsStarted ++ [q] }

/-- Completion of the in-flight run of `processQueue`: the continuation
after `await embed(...)`.  On success the query embedding is stored and
the results are regenerated wholesale; on failure the `catch` block
ignores the error.  In both cases the `finally` block clears
`isSearching` and immediately processes any pending query. -/
def processQueueComplete (env : SchedulerEnv) (s : SchedState) : SchedState :=
  match s.active with
  | none => s
  | some q =>
    let s1 :=
      match env.embedF q with
      | Except.ok e =>
        { s with results := computeResults env.cosF e env.points, lastQE := some e }
      | Except.error _ => s
    processQueueStart env
      { s1 with searching := false, active := none, runsCompleted := s.runsCompleted + 1 }

/-- Externally visible scheduler events: a query submission (the
`searchQuery` effect writing `pendingQuery.current` and invoking
`processQueue`) and the completion of the awaited embedding call. -/
inductive SchedEvent where
  | submit (q : String)
  | complete
deriving DecidableEq

def schedStep (env : SchedulerEnv) (s : SchedState) : SchedEvent → SchedState
  | SchedEvent.submit q => processQueueStart env { s with pending := some q }
  | SchedEvent.complete => processQueueComplete env s

def schedRun (env : SchedulerEnv) (s : SchedState) (evs : List SchedEvent) : SchedState :=
  evs.foldl (schedStep env) s

def schedInit : SchedState :=
  { pending := none, searching := false, active := none, results := [],
    lastQE := none, runsStarted := [], runsCompleted := 0 }

/-- A state is reachable if some event sequence produces it from the
initial state. -/
def SchedReachable (env : SchedulerEnv) (s : SchedState) : Prop :=
  ∃ evs, schedRun env schedInit evs = s

/-- Scheduler invariant: the searching flag tracks exactly whether a run
is in flight, and the number of started runs exceeds the number of
completed runs by exactly the number of in-flight runs (0 or 1). -/
def SchedInv (s : SchedState) : Prop :=
  s.searching = s.active.isSome ∧
    s.runsStarted.length = s.runsCompleted + (if s.active.isSome then 1 else 0)

/-- The React state of `App` touched by `handleGenerateGalaxy`. -/
structure AppState where
  galaxyPoints : List NeuronPoint
  searchResults : List SearchResult
  searchQuery : String
  lastQE : Option (List ℚ)
  isGenerating : Bool
  generationStatus : String
deriving DecidableEq

/-- Model of `handleGenerateGalaxy` up to and including its sentence-count
validation.  `jsSort` abstracts the engine-defined result of
`sentences.sort((x) => x.length)` (whose single-argument comparator makes
the order engine-specific; only its length preservation matters here) and
`runPipeline` abstracts the whole try/catch block performing the batched
embedding, the UMAP projection and the warp — the state-dependent part of
a successful (or upstream-failed) generation.  The `finally` block always
clears `isGenerating`. -/
def handleGenerateGalaxy (isReady : Bool) (jsSort : List String → List String)
    (runPipeline : List String → AppState → AppState)
    (textInput : String) (s : AppState) : AppState :=
  if isReady = false ∨ isBlank textInput = true then s
  else
    let s1 := { s with isGenerating := true, searchResults := [], searchQuery := "",
                       lastQE := none, generationStatus := "Generating brain..." }
    let sentences := jsSort (sentencesOf textInput)
    if sentences.length < 3 then { s1 with isGenerating := false }
    else { runPipeline sentences s1 with isGenerating := false }

/-- Model of `handlePointFocus`.  `pointSim` is the `similarity` field of
the argument when it is already a `SearchResult` (`none` when a bare
`NeuronPoint` is clicked).  Returns the new result list passed to
`setSearchResults`, or `none` when the handler returns without touching
any state. -/
def handlePointFocus (lastQE : Option (List ℚ)) (cosF : List ℚ → List ℚ → ℚ)
    (searchResults : List SearchResult) (point : NeuronPoint)
    (pointSim : Option ℚ) : Option (List SearchResult) :=
  let sim? : Option ℚ :=
    match pointSim with
    | some simVal => some simVal
    | none =>
      match lastQE with
      | some e => some (cosF e point.embedding)
      | none => none
  match sim? with
  | none => none
  | some simVal =>
    some ({ toNeuronPoint := point, similarity := simVal } ::
      searchResults.filter (fun r => r.text != point.text))

def minFocusDist : ℚ := 6

def maxFocusDist : ℚ := 20

/-- `THREE.MathUtils.clamp(value, min, max)`. -/
def clampQ (value lo hi : ℚ) : ℚ := max lo (min hi value)

/-- `THREE.MathUtils.mapLinear(x, a1, a2, b1, b2)`. -/
def mapLinear (x a1 a2 b1 b2 : ℚ) : ℚ := b1 + (x - a1) * (b2 - b1) / (a2 - a1)

/-- The readability compensation of the focus effect:
`clamp((text.length - 40) / 80, 0, 1)`. -/
def lengthFactor (textLen : ℕ) : ℚ := clampQ (((textLen : ℚ) - 40) / 80) 0 1

/-- `distanceAdjust = isMobile ? 1 + 0.4 * lengthFactor : 1`. -/
def distanceAdjust (isMobile : Bool) (textLen : ℕ) : ℚ :=
  if isMobile then 1 + 0.4 * lengthFactor textLen else 1

/-- The focus distance computed by the `searchResults` effect of `Scene`:
similarity clamped to [0,1], mapped linearly onto [far, near] = [20, 6],
then scaled by the device/content adjustment. -/
def desiredDist (similarity : ℚ) (isMobile : Bool) (textLen : ℕ) : ℚ :=
  mapLinear (clampQ similarity 0 1) 0 1 maxFocusDist minFocusDist *
    distanceAdjust isMobile textLen

/-- The camera-related state of `Scene`: the camera position, the orbit
target, the animation target refs and the `shouldAnimate` flag. -/
structure CamState where
  camPos : Vec3
  target : Vec3
  camTargetPos : Vec3
  lookAt : Vec3
  shouldAnimate : Bool
deriving DecidableEq

/-- Model of the `searchResults` effect of `Scene` (the focus-transition
trigger).  On an empty result list, or a top result with empty text, the
camera snaps back to the stored default view.  Otherwise, if the top
result matches a fitted point, the animation target is placed at
`desiredDist` from that point along the current view direction and the
transition flag is raised. -/
def sceneFocusEffect (len : Vec3 → ℚ) (isMobile : Bool)
    (fitPts : List NeuronPoint) (defaultView : Option (Vec3 × Vec3))
    (results : List SearchResult) (c : CamState) : CamState :=
  match results with
  | [] =>
    match defaultView with
    | some dv => { c with camPos := dv.1, target := dv.2 }
    | none => c
  | top :: _ =>
    if top.text = "" then
      match defaultView with
      | some dv => { c with camPos := dv.1, target := dv.2 }
      | none => c
    else
      match fitPts.find? (fun fp => fp.text == top.text) with
      | none => c
      | some fp =>
        let offsetDirection := normalize3 len (c.camPos - c.target)
        let dist := desiredDist top.similarity isMobile top.text.length
        { c with camTargetPos := fp.position + dist • offsetDirection,
                 lookAt := fp.position,
                 shouldAnimate := true }

/-! Concrete instantiations used to evaluate the theorems below on
explicit inputs. -/

/-- Concrete point list exercising the fit normalization. -/
def psW : List Vec3 := [⟨1, 0, 0⟩, ⟨-1, 0, 0⟩, ⟨0, 0, 0⟩]

/-- Concrete seeded-random stand-in whose values at the seeds of point
index 2 give the push direction (3/5, 4/5, 0) of rational length 1. -/
def rndW (n : ℕ) : ℚ :=
  if n = 6 then 4/5 else if n = 7 then 9/10 else if n = 8 then 1/2 else 0

/-- Concrete length oracle for the vectors reached by the witness. -/
def lenW (v : Vec3) : ℚ := if v = ⟨3/5, 4/5, 0⟩ then 1 else 0

/-- A concrete point. -/
def pW : NeuronPoint := ⟨"p", ⟨0, 0, 0⟩, [1]⟩

/-- A scheduler environment whose embedding always succeeds. -/
def envOkW : SchedulerEnv :=
  ⟨fun _ => Except.ok [1], fun _ _ => 0, [pW], true⟩

/-- A scheduler environment whose embedding always fails. -/
def envErrW : SchedulerEnv :=
  ⟨fun _ => Except.error (), fun _ _ => 0, [pW], true⟩

/-- A concrete search result. -/
def resW : SearchResult := ⟨pW, 1⟩

/-- A concrete app state holding prior search state. -/
def appStateW : AppState := ⟨[pW], [resW], "hello", some [1], false, ""⟩

/-- The scheduler state after submitting "x" from the initial state: a
run for "x" is in flight. -/
def schedW : SchedState := schedRun envOkW schedInit [SchedEvent.submit "x"]

/-- A scheduler state with a run for "q" in flight, a pending query
"next", and prior results. -/
def schedErrW : SchedState :=
  { pending := some "next", searching := true, active := some "q",
    results := [resW], lastQE := some [1], runsStarted := ["q"], runsCompleted := 0 }

/-- A scheduler state with a run for "q" in flight and nothing pending. -/
def schedDoneW : SchedState :=
  { pending := none, searching := true, active := some "q",
    results := [], lastQE := none, runsStarted := ["q"], runsCompleted := 0 }

/-- A concrete camera state whose view direction is the unit vector
(3/5, 4/5, 0). -/
def camW : CamState :=
  ⟨⟨3/5, 4/5, 0⟩, ⟨0, 0, 0⟩, ⟨0, 0, 0⟩, ⟨0, 0, 0⟩, false⟩

/-- A concrete point list whose only point lies outside the default inner
ellipsoid. -/
def ptsOutW : List NeuronPoint := [⟨"a", ⟨0, 50, 0⟩, []⟩]

/-! Basic vector lemmas. -/

theorem seededRandom_nonneg (sinF : ℚ → ℚ) (seed : ℚ) : 0 ≤ seededRandom sinF seed :=
  Int.fract_nonneg _

theorem seededRandom_lt_one (sinF : ℚ → ℚ) (seed : ℚ) : seededRandom sinF seed < 1 :=
  Int.fract_lt_one _

theorem Vec3.smul_def (a : ℚ) (v : Vec3) : a • v = ⟨a * v.x, a * v.y, a * v.z⟩ := rfl

theorem Vec3.add_def (a b : Vec3) : a + b = ⟨a.x + b.x, a.y + b.y, a.z + b.z⟩ := rfl

theorem Vec3.sub_def (a b : Vec3) : a - b = ⟨a.x - b.x, a.y - b.y, a.z - b.z⟩ := rfl

theorem Vec3.neg_def (a : Vec3) : -a = ⟨-a.x, -a.y, -a.z⟩ := rfl

theorem Vec3.zero_def : (0 : Vec3) = ⟨0, 0, 0⟩ := rfl

theorem normSq_smul (a : ℚ) (v : Vec3) : normSq (a • v) = a ^ 2 * normSq v := by
  simp only [Vec3.smul_def, normSq]
  ring

theorem smul_smul_vec3 (a b : ℚ) (v : Vec3) : a • (b • v) = (a * b) • v := by
  simp only [Vec3.smul_def, Vec3.mk.injEq]
  refine ⟨by ring, by ring, by ring⟩

theorem normSq_nonneg (v : Vec3) : 0 ≤ normSq v := by
  have := sq_nonneg v.x
  have := sq_nonneg v.y
  have := sq_nonneg v.z
  simp only [normSq]
  nlinarith

theorem normSq_eq_zero_iff (v : Vec3) : normSq v = 0 ↔ v = 0 := by
  obtain ⟨x, y, z⟩ := v
  constructor
  · intro h
    simp only [normSq] at h
    have hx : x = 0 := by nlinarith [sq_nonneg x, sq_nonneg y, sq_nonneg z]
    have hy : y = 0 := by nlinarith [sq_nonneg x, sq_nonneg y, sq_nonneg z]
    have hz : z = 0 := by nlinarith [sq_nonneg x, sq_nonneg y, sq_nonneg z]
    simp [Vec3.zero_def, hx, hy, hz]
  · intro h
    rw [h, Vec3.zero_def]
    norm_num [normSq]

/-- For a nonzero vector with a correct length oracle, `normalize3`
produces a unit vector. -/
theorem normSq_normalize3 (len : Vec3 → ℚ) (v : Vec3) (hv : IsLen len v) (hne : v ≠ 0) :
    normSq (normalize3 len v) = 1 := by
  have hnz : normSq v ≠ 0 := fun h => hne ((normSq_eq_zero_iff v).mp h)
  have hlen : len v ≠ 0 := by
    intro h
    apply hnz
    rw [← hv.2, h]
    norm_num
  rw [normalize3, if_neg hlen, normSq_smul]
  rw [← hv.2]
  field_simp

/-- C2: after centering on the bounding-box center and dividing by half
the largest box dimension (`normalizePoint`), the radial adjustment of
`fitPoints` (1) always yields a point of normalized radius at most 0.95,
(2) radially clamps a point of length above 0.95 to exactly 0.95
preserving its direction (a positive scalar multiple), and (3) replaces a
point of length below 0.05 by a displaced position that is a pure
function of the point's index with radius in [0.05, 0.15].  Lengths are
measured through the abstract length oracle `len`, constrained by
`IsLen`; `hdir` rules out the degenerate seeded direction `(0,0,0)`
(impossible for the actual `sin`-based seeded random). -/
theorem fitNormalizationBounds (len : Vec3 → ℚ) (rnd : ℕ → ℚ)
    (ps : List Vec3) (i : Fin ps.length) (v : Vec3)
    (hv : v = normalizePoint ps (ps.get i))
    (hlenv : IsLen len v) (hlenw : IsLen len (rawDir rnd i.1))
    (hrnd : ∀ n, 0 ≤ rnd n ∧ rnd n < 1)
    (hdir : rawDir rnd i.1 ≠ 0) :
    normSq (adjustNormalized len rnd i.1 v) ≤ (0.95 : ℚ) ^ 2 ∧
    (len v > 0.95 →
      adjustNormalized len rnd i.1 v = ((0.95 : ℚ) / len v) • v ∧
      0 < (0.95 : ℚ) / len v ∧
      normSq (adjustNormalized len rnd i.1 v) = (0.95 : ℚ) ^ 2) ∧
    (len v < 0.05 →
      adjustNormalized len rnd i.1 v = displacedPoint len rnd i.1 ∧
      (0.05 : ℚ) ^ 2 ≤ normSq (adjustNormalized len rnd i.1 v) ∧
      normSq (adjustNormalized len rnd i.1 v) ≤ (0.15 : ℚ) ^ 2) := by
  have hdisp : normSq (displacedPoint len rnd i.1) =
      (0.05 + rnd (i.1 * 7) * 0.1) ^ 2 := by
    rw [displacedPoint]
    rw [normSq_smul, normSq_normalize3 len _ hlenw hdir, mul_one]
  have hr0 : 0 ≤ rnd (i.1 * 7) := (hrnd _).1
  have hr1 : rnd (i.1 * 7) < 1 := (hrnd _).2
  by_cases hlt : len v < 0.05
  · have hngt : ¬ len v > 0.95 := by
      intro h
      norm_num at hlt h
      linarith
    have hadj : adjustNormalized len rnd i.1 v = displacedPoint len rnd i.1 := by
      rw [adjustNormalized]
      simp only [hngt, if_neg, if_pos hlt, ite_false]
    refine ⟨?_, fun h => absurd h hngt, fun _ => ⟨hadj, ?_, ?_⟩⟩
    · rw [hadj, hdisp]
      nlinarith
    · rw [hadj, hdisp]
      nlinarith
    · rw [hadj, hdisp]
      nlinarith
  · by_cases hgt : len v > 0.95
    · have hlen0 : len v ≠ 0 := by
        intro h
        rw [h] at hgt
        norm_num at hgt
      have hadj : adjustNormalized len rnd i.1 v = ((0.95 : ℚ) / len v) • v := by
        rw [adjustNormalized]
        simp only [if_pos hgt, if_neg hlt]
        rw [normalize3, if_neg hlen0, smul_smul_vec3]
        congr 1
        field_simp
      have hpos : 0 < (0.95 : ℚ) / len v := by
        apply div_pos (by norm_num)
        linarith
      have hsq : normSq (adjustNormalized len rnd i.1 v) = (0.95 : ℚ) ^ 2 := by
        rw [hadj, normSq_smul, ← hlenv.2]
        field_simp
      exact ⟨le_of_eq hsq, fun _ => ⟨hadj, hpos, hsq⟩, fun h => absurd h hlt⟩
    · have hadj : adjustNormalized len rnd i.1 v = v := by
        rw [adjustNormalized]
        simp only [if_neg hgt, if_neg hlt]
      have hle : len v ≤ 0.95 := le_of_not_lt hgt
      refine ⟨?_, fun h => absurd h hgt, fun h => absurd h hlt⟩
      rw [hadj, ← hlenv.2]
      nlinarith [hlenv.1]

/-! Scheduler lemmas. -/

theorem schedInv_init : SchedInv schedInit := ⟨rfl, rfl⟩

theorem schedInv_start (env : SchedulerEnv) (s : SchedState) (h : SchedInv s) :
    SchedInv (processQueueStart env s) := by
  rw [processQueueStart]
  split
  · exact h
  next hs =>
    have hact : s.active.isSome = false := by
      rw [← h.1]
      exact Bool.not_eq_true _ |>.mp hs
    split
    · exact h
    next q hp =>
      split
      next hd =>
        refine ⟨by simpa using hact.symm, ?_⟩
        simpa [hact] using h.2
      next hd =>
        refine ⟨rfl, ?_⟩
        have h2 := h.2
        rw [hact] at h2
        simp at h2 ⊢
        omega

theorem schedInv_complete (env : SchedulerEnv) (s : SchedState) (h : SchedInv s) :
    SchedInv (processQueueComplete env s) := by
  rw [processQueueComplete]
  cases ha : s.active with
  | none => exact h
  | some q =>
    have hact : s.active.isSome = true := by rw [ha]; rfl
    have hlen : s.runsStarted.length = s.runsCompleted + 1 := by
      have := h.2
      rwa [hact] at this
    apply schedInv_start
    cases he : env.embedF q <;>
      exact ⟨rfl, by simpa using hlen⟩

theorem schedInv_step (env : SchedulerEnv) (s : SchedState) (ev : SchedEvent)
    (h : SchedInv s) : SchedInv (schedStep env s ev) := by
  cases ev with
  | submit q =>
    apply schedInv_start
    exact ⟨h.1, h.2⟩
  | complete => exact schedInv_complete env s h

theorem schedInv_run (env : SchedulerEnv) (evs : List SchedEvent) :
    ∀ s, SchedInv s → SchedInv (schedRun env s evs) := by
  induction evs with
  | nil => intro s h; exact h
  | cons ev rest ih =>
    intro s h
    exact ih _ (schedInv_step env s ev h)

theorem reachable_inv (env : SchedulerEnv) (s : SchedState)
    (h : SchedReachable env s) : SchedInv s := by
  obtain ⟨evs, rfl⟩ := h
  exact schedInv_run env evs _ schedInv_init

theorem submit_while_searching (env : SchedulerEnv) (s : SchedState) (q : String)
    (h : s.searching = true) :
    schedStep env s (SchedEvent.submit q) = { s with pending := some q } := by
  simp [schedStep, processQueueStart, h]

theorem submits_foldl (env : SchedulerEnv) :
    ∀ (qs : List String) (hne : qs ≠ []) (s : SchedState), s.searching = true →
      schedRun env s (qs.map SchedEvent.submit) =
        { s with pending := some (qs.getLast hne) } := by
  intro qs
  induction qs with
  | nil => intro hne; exact absurd rfl hne
  | cons q rest ih =>
    intro hne s hs
    cases rest with
    | nil =>
      show schedStep env s (SchedEvent.submit q) = _
      rw [submit_while_searching env s q hs]
      simp
    | cons r rs =>
      have hstep : schedRun env s ((q :: r :: rs).map SchedEvent.submit) =
          schedRun env { s with pending := some q } ((r :: rs).map SchedEvent.submit) := by
        show schedRun env (schedStep env s (SchedEvent.submit q)) _ = _
        rw [submit_while_searching env s q hs]
      rw [hstep, ih (by simp) { s with pending := some q } hs]
      simp [List.getLast_cons]

theorem processQueueStart_runnable (env : SchedulerEnv) (s : SchedState) (q : String)
    (hs : s.searching = false) (hp : s.pending = some q) (hq : runnableQ env q) :
    processQueueStart env s =
      { s with pending := none, searching := true, active := some q,
               runsStarted := s.runsStarted ++ [q] } := by
  rw [processQueueStart, if_neg (by rw [hs]; exact Bool.false_ne_true), hp]
  exact if_neg hq

theorem processQueueStart_syncClear (env : SchedulerEnv) (s : SchedState) (q : String)
    (hs : s.searching = false) (hp : s.pending = some q) (hq : ¬ runnableQ env q) :
    processQueueStart env s =
      { s with pending := none, searching := false, results := [], lastQE := none } := by
  rw [processQueueStart, if_neg (by rw [hs]; exact Bool.false_ne_true), hp]
  exact if_pos (not_not.mp hq)

theorem processQueueStart_noPending (env : SchedulerEnv) (s : SchedState)
    (hp : s.pending = none) : processQueueStart env s = s := by
  rw [processQueueStart, hp]
  split <;> rfl

theorem completeInFlight_ok (env : SchedulerEnv) (s : SchedState) (q : String)
    (e : List ℚ) (hact : s.active = some q) (he : env.embedF q = Except.ok e) :
    processQueueComplete env s = processQueueStart env
      { s with results := computeResults env.cosF e env.points, lastQE := some e,
               searching := false, active := none, runsCompleted := s.runsCompleted + 1 } := by
  rw [processQueueComplete, hact]
  simp only [he]

theorem completeInFlight_err (env : SchedulerEnv) (s : SchedState) (q : String)
    (hact : s.active = some q) (he : env.embedF q = Except.error ()) :
    processQueueComplete env s = processQueueStart env
      { s with searching := false, active := none, runsCompleted := s.runsCompleted + 1 } := by
  rw [processQueueComplete, hact]
  simp only [he]

/-- C1: the `processQueue` scheduler is single-flight with latest-wins
semantics.  (1) In every reachable state at most one similarity run is in
flight (started runs never exceed completed runs by more than one);
(2) submitting a query while a run is in flight only overwrites the
single pending slot — no new run starts and no other state changes;
(3) for any non-empty burst of submissions `qs` arriving while a run is
in flight, completion of the in-flight run starts at most one further
run, and it uses exactly the last submitted query `ql`: if `ql` is
runnable the run log is extended by `ql` alone (intermediate values are
never run), and otherwise no run starts at all and the results are
cleared synchronously. -/
theorem schedulerSingleFlightLatestWins (env : SchedulerEnv) (s : SchedState)
    (q0 ql : String) (qs : List String)
    (hreach : SchedReachable env s) (hact : s.active = some q0)
    (hne : qs ≠ []) (hlast : qs.getLast hne = ql) :
    (∀ t, SchedReachable env t → t.runsStarted.length ≤ t.runsCompleted + 1) ∧
    (∀ q, schedStep env s (SchedEvent.submit q) = { s with pending := some q }) ∧
    (runnableQ env ql →
      (schedRun env s (qs.map SchedEvent.submit ++ [SchedEvent.complete])).runsStarted =
          s.runsStarted ++ [ql] ∧
      (schedRun env s (qs.map SchedEvent.submit ++ [SchedEvent.complete])).active = some ql) ∧
    (¬ runnableQ env ql →
      (schedRun env s (qs.map SchedEvent.submit ++ [SchedEvent.complete])).runsStarted =
          s.runsStarted ∧
      (schedRun env s (qs.map SchedEvent.submit ++ [SchedEvent.complete])).active = none ∧
      (schedRun env s (qs.map SchedEvent.submit ++ [SchedEvent.complete])).results = []) := by
  have hinv := reachable_inv env s hreach
  have hs : s.searching = true := by
    rw [hinv.1, hact]
    rfl
  have hrun : schedRun env s (qs.map SchedEvent.submit ++ [SchedEvent.complete]) =
      processQueueComplete env { s with pending := some ql } := by
    rw [schedRun, List.foldl_append]
    have hsub := submits_foldl env qs hne s hs
    rw [hlast] at hsub
    show List.foldl (schedStep env) (schedRun env s (qs.map SchedEvent.submit))
        [SchedEvent.complete] = _
    rw [hsub]
    rfl
  have hact1 : ({ s with pending := some ql } : SchedState).active = some q0 := hact
  refine ⟨?_, fun q => submit_while_searching env s q hs, ?_, ?_⟩
  · intro t ht
    have h2 := (reachable_inv env t ht).2
    split at h2 <;> omega
  · intro hq
    cases he : env.embedF q0 with
    | ok e =>
      rw [hrun, completeInFlight_ok env _ q0 e hact1 he,
        processQueueStart_runnable env _ ql rfl rfl hq]
      exact ⟨rfl, rfl⟩
    | error u =>
      rw [hrun, completeInFlight_err env _ q0 hact1 (by rw [he]), 
        processQueueStart_runnable env _ ql rfl rfl hq]
      exact ⟨rfl, rfl⟩
  · intro hq
    cases he : env.embedF q0 with
    | ok e =>
      rw [hrun, completeInFlight_ok env _ q0 e hact1 he,
        processQueueStart_syncClear env _ ql rfl rfl hq]
      exact ⟨rfl, rfl, rfl⟩
    | error u =>
      rw [hrun, completeInFlight_err env _ q0 hact1 (by rw [he]),
        processQueueStart_syncClear env _ ql rfl rfl hq]
      exact ⟨rfl, rfl, rfl⟩

/-- Witness for C1: with a run for "x" in flight, submitting "a", "ab",
"abc" and then completing starts exactly one more run, for "abc". -/
theorem schedulerSingleFlightLatestWins_witness :
    (schedRun envOkW schedW
        (["a", "ab", "abc"].map SchedEvent.submit ++ [SchedEvent.complete])).runsStarted =
      schedW.runsStarted ++ ["abc"] ∧
    schedW.runsStarted = ["x"] := by
  have h := schedulerSingleFlightLatestWins envOkW schedW "x" "abc" ["a", "ab", "abc"]
    ⟨[SchedEvent.submit "x"], rfl⟩ (by decide) (by decide) (by decide)
  exact ⟨(h.2.2.1 (by decide)).1, by decide⟩

/-- C4: an embedding failure during a search run is swallowed per-query.
The catch/finally path (a) behaves exactly like a run that produced no
results — the scheduler resets its in-flight state and immediately
processes the pending slot, never propagating the error; (b) applies no
result or query-embedding update when nothing is pending; (c) runs a
query that was pending at failure time normally (still with the previous
results intact); (d) handles a non-runnable pending query by clearing
results synchronously, leaving the scheduler idle. -/
theorem searchErrorSwallowed (env : SchedulerEnv) (s : SchedState) (q : String)
    (hact : s.active = some q) (herr : env.embedF q = Except.error ()) :
    processQueueComplete env s =
      processQueueStart env
        { s with searching := false, active := none,
                 runsCompleted := s.runsCompleted + 1 } ∧
    (s.pending = none →
      processQueueComplete env s =
        { s with searching := false, active := none,
                 runsCompleted := s.runsCompleted + 1 }) ∧
    (∀ q2, s.pending = some q2 → runnableQ env q2 →
      (processQueueComplete env s).active = some q2 ∧
      (processQueueComplete env s).runsStarted = s.runsStarted ++ [q2] ∧
      (processQueueComplete env s).results = s.results ∧
      (processQueueComplete env s).lastQE = s.lastQE) ∧
    (∀ q2, s.pending = some q2 → ¬ runnableQ env q2 →
      (processQueueComplete env s).searching = false ∧
      (processQueueComplete env s).active = none ∧
      (processQueueComplete env s).results = []) := by
  have ha := completeInFlight_err env s q hact herr
  refine ⟨ha, fun hp => ?_, fun q2 hp hq => ?_, fun q2 hp hq => ?_⟩
  · rw [ha, processQueueStart_noPending env
      { s with searching := false, active := none, runsCompleted := s.runsCompleted + 1 } hp]
  · rw [ha, processQueueStart_runnable env
      { s with searching := false, active := none, runsCompleted := s.runsCompleted + 1 }
      q2 rfl hp hq]
    exact ⟨rfl, rfl, rfl, rfl⟩
  · rw [ha, processQueueStart_syncClear env
      { s with searching := false, active := none, runsCompleted := s.runsCompleted + 1 }
      q2 rfl hp hq]
    exact ⟨rfl, rfl, rfl⟩

/-- Witness for C4: with a failing embedder, a run for "q" in flight and
"next" pending, completion leaves the prior results untouched and starts
the pending query's run. -/
theorem searchErrorSwallowed_witness :
    (processQueueComplete envErrW schedErrW).active = some "next" ∧
    (processQueueComplete envErrW schedErrW).runsStarted = ["q", "next"] ∧
    (processQueueComplete envErrW schedErrW).results = [resW] := by
  have h := searchErrorSwallowed envErrW schedErrW "q" rfl rfl
  obtain ⟨h1, h2, h3, h4⟩ := h.2.2.1 "next" rfl (by decide)
  exact ⟨h1, by rw [h2]; rfl, h3⟩

/-! Stability of insertion sort (JavaScript `Array.prototype.sort` is
specified to be stable; insertion sort implements the same stable order
for a total transitive comparator). -/

theorem orderedInsert_split {α : Type} (r : α → α → Prop) [DecidableRel r] (a : α) :
    ∀ l : List α, ∃ l1 l2, l = l1 ++ l2 ∧
      List.orderedInsert r a l = l1 ++ a :: l2 ∧ ∀ b ∈ l1, ¬ r a b := by
  intro l
  induction l with
  | nil => exact ⟨[], [], rfl, rfl, by simp⟩
  | cons b t ih =>
    by_cases h : r a b
    · exact ⟨[], b :: t, rfl, by simp [List.orderedInsert, if_pos h], by simp⟩
    · obtain ⟨l1, l2, he, hoi, hl1⟩ := ih
      refine ⟨b :: l1, l2, by simp [← he], ?_, ?_⟩
      · simp only [List.orderedInsert, if_neg h, hoi, List.cons_append]
      · intro x hx
        rcases List.mem_cons.mp hx with hxb | hxl
        · rw [hxb]; exact h
        · exact hl1 x hxl

theorem filter_orderedInsert {α : Type} (r : α → α → Prop) [DecidableRel r]
    (p : α → Bool) (hp : ∀ x y, p x = true → p y = true → r x y) (a : α) (l : List α) :
    (List.orderedInsert r a l).filter p =
      if p a then a :: l.filter p else l.filter p := by
  obtain ⟨l1, l2, he, hoi, hl1⟩ := orderedInsert_split r a l
  by_cases hpa : p a = true
  · have hl1nil : l1.filter p = [] := by
      rw [List.filter_eq_nil_iff]
      intro b hb hpb
      exact hl1 b hb (hp a b hpa hpb)
    rw [hoi, if_pos hpa, he]
    simp [List.filter_append, List.filter_cons, hpa, hl1nil]
  · rw [hoi, if_neg hpa, he]
    simp [List.filter_append, List.filter_cons, hpa]

theorem filter_insertionSort {α : Type} (r : α → α → Prop) [DecidableRel r]
    (p : α → Bool) (hp : ∀ x y, p x = true → p y = true → r x y) :
    ∀ l : List α, (List.insertionSort r l).filter p = l.filter p := by
  intro l
  induction l with
  | nil => rfl
  | cons x t ih =>
    show (List.orderedInsert r x (List.insertionSort r t)).filter p = _
    rw [filter_orderedInsert r p hp x _, ih, List.filter_cons]

/-- C8: every successfully completed query regenerates the result list
wholesale as `computeResults` — a pure function of the query embedding
and the point set, independent of the previous result list — ordered
non-increasingly by similarity, with ties keeping the original insertion
order of the point set (stable sort). -/
theorem resultsSortedStableWholesale (env : SchedulerEnv) (s : SchedState)
    (q : String) (e : List ℚ) (hact : s.active = some q)
    (he : env.embedF q = Except.ok e) (hpend : s.pending = none) :
    (processQueueComplete env s).results = computeResults env.cosF e env.points ∧
    List.Sorted simGE (processQueueComplete env s).results ∧
    (∀ c : ℚ,
      (processQueueComplete env s).results.filter (fun r => r.similarity == c) =
        (env.points.map (fun p =>
          ({ toNeuronPoint := p, similarity := env.cosF e p.embedding } : SearchResult))).filter
            (fun r => r.similarity == c)) ∧
    (∀ res2 : List SearchResult,
      (processQueueComplete env { s with results := res2 }).results =
        (processQueueComplete env s).results) := by
  have hres : (processQueueComplete env s).results = computeResults env.cosF e env.points := by
    rw [completeInFlight_ok env s q e hact he, processQueueStart_noPending env
      { s with results := computeResults env.cosF e env.points, lastQE := some e,
               searching := false, active := none, runsCompleted := s.runsCompleted + 1 } hpend]
  have hstable : ∀ x y : SearchResult, ∀ c : ℚ,
      (x.similarity == c) = true → (y.similarity == c) = true → simGE x y := by
    intro x y c hx hy
    rw [simGE, beq_iff_eq.mp hx, beq_iff_eq.mp hy]
  refine ⟨hres, ?_, ?_, ?_⟩
  · rw [hres, computeResults]
    exact List.sorted_insertionSort simGE _
  · intro c
    rw [hres, computeResults]
    exact filter_insertionSort simGE _ (fun x y hx hy => hstable x y c hx hy) _
  · intro res2
    rw [hres, completeInFlight_ok env { s with results := res2 } q e hact he,
      processQueueStart_noPending env
        { s with results := computeResults env.cosF e env.points, lastQE := some e,
                 searching := false, active := none, runsCompleted := s.runsCompleted + 1 } hpend]

/-- Witness for C8: a concrete successful completion yields exactly the
wholesale-computed, sorted result list. -/
theorem resultsSortedStableWholesale_witness :
    (processQueueComplete envOkW schedDoneW).results =
      computeResults envOkW.cosF [1] envOkW.points ∧
    List.Sorted simGE (processQueueComplete envOkW schedDoneW).results := by
  have h := resultsSortedStableWholesale envOkW schedDoneW "q" [1] rfl rfl rfl
  exact ⟨h.1, h.2.1⟩

/-- C10: a successfully completed run of a runnable query (non-blank
text, model ready, non-empty point set) produces exactly one result per
existing point: the list has the same length as the point set, is
non-empty, and every point appears in it with its computed similarity. -/
theorem resultsOnePerPoint (env : SchedulerEnv) (s : SchedState)
    (q : String) (e : List ℚ) (hact : s.active = some q)
    (he : env.embedF q = Except.ok e) (hpend : s.pending = none)
    (hq : runnableQ env q) :
    (processQueueComplete env s).results.length = env.points.length ∧
    (processQueueComplete env s).results ≠ [] ∧
    ∀ p ∈ env.points, ∃ r ∈ (processQueueComplete env s).results,
      r.toNeuronPoint = p ∧ r.similarity = env.cosF e p.embedding := by
  have hres : (processQueueComplete env s).results = computeResults env.cosF e env.points := by
    rw [completeInFlight_ok env s q e hact he, processQueueStart_noPending env
      { s with results := computeResults env.cosF e env.points, lastQE := some e,
               searching := false, active := none, runsCompleted := s.runsCompleted + 1 } hpend]
  have hlen : (processQueueComplete env s).results.length = env.points.length := by
    rw [hres, computeResults, List.length_insertionSort, List.length_map]
  have hne : env.points ≠ [] := by
    rw [runnableQ] at hq
    push_neg at hq
    exact hq.2.2
  refine ⟨hlen, ?_, ?_⟩
  · intro hnil
    rw [hnil] at hlen
    exact hne (List.length_eq_zero.mp hlen.symm)
  · intro p hp
    refine ⟨{ toNeuronPoint := p, similarity := env.cosF e p.embedding }, ?_, rfl, rfl⟩
    rw [hres, computeResults, List.mem_insertionSort]
    exact List.mem_map_of_mem _ hp

/-- Witness for C10: the concrete completed run returns one result per
point of the one-point environment. -/
theorem resultsOnePerPoint_witness :
    (processQueueComplete envOkW schedDoneW).results.length = envOkW.points.length ∧
    (processQueueComplete envOkW schedDoneW).results ≠ [] := by
  have h := resultsOnePerPoint envOkW schedDoneW "q" [1] rfl rfl rfl (by decide)
  exact ⟨h.1, h.2.1⟩

/-- Witness for C2: for the concrete point list `psW`, point index 2
normalizes to the origin and is displaced to a radius in [0.05, 0.15]
(never above 0.95). -/
theorem fitNormalizationBounds_witness :
    adjustNormalized lenW rndW 2 ⟨0, 0, 0⟩ = displacedPoint lenW rndW 2 ∧
    (0.05 : ℚ) ^ 2 ≤ normSq (adjustNormalized lenW rndW 2 ⟨0, 0, 0⟩) ∧
    normSq (adjustNormalized lenW rndW 2 ⟨0, 0, 0⟩) ≤ (0.15 : ℚ) ^ 2 ∧
    normSq (adjustNormalized lenW rndW 2 ⟨0, 0, 0⟩) ≤ (0.95 : ℚ) ^ 2 := by
  have hrnd : ∀ n, 0 ≤ rndW n ∧ rndW n < 1 := by
    intro n
    rw [rndW]
    split
    · norm_num
    · split
      · norm_num
      · split <;> norm_num
  have h := fitNormalizationBounds lenW rndW psW ⟨2, by norm_num [psW]⟩ ⟨0, 0, 0⟩
    (by norm_num [normalizePoint, boxMaxDim, boxSize, boxCenter, boxMin, boxMax, psW,
      Vec3.smul_def, Vec3.add_def, Vec3.sub_def, min_def, max_def, Vec3.mk.injEq])
    (by norm_num [IsLen, lenW, normSq, Vec3.mk.injEq])
    (by norm_num [IsLen, lenW, normSq, rawDir, rndW, Vec3.mk.injEq])
    hrnd
    (by rw [Ne, Vec3.zero_def]; norm_num [rawDir, rndW, Vec3.mk.injEq])
  have h3 := h.2.2 (by norm_num [lenW, Vec3.mk.injEq])
  exact ⟨h3.1, h3.2.1, h3.2.2, h.1⟩

/-- C3 (amended): a generation request with fewer than 3 sentences is
rejected before any embedding or projection work (the result does not
depend on the pipeline at all) and the existing point set is untouched —
but, contrary to the original claim, the search results, the query text
and the stored query embedding are cleared (and the generation status
overwritten) before the sentence-count check runs. -/
theorem generateRejectsUnder3 (jsSort : List String → List String)
    (hsort : ∀ l, (jsSort l).length = l.length)
    (rp rp2 : List String → AppState → AppState)
    (textInput : String) (s : AppState)
    (hnb : isBlank textInput = false)
    (hcount : (sentencesOf textInput).length < 3) :
    handleGenerateGalaxy true jsSort rp textInput s =
      { s with isGenerating := false, searchResults := [], searchQuery := "",
               lastQE := none, generationStatus := "Generating brain..." } ∧
    (handleGenerateGalaxy true jsSort rp textInput s).galaxyPoints = s.galaxyPoints ∧
    handleGenerateGalaxy true jsSort rp2 textInput s =
      handleGenerateGalaxy true jsSort rp textInput s := by
  have hmain : ∀ rp3 : List String → AppState → AppState,
      handleGenerateGalaxy true jsSort rp3 textInput s =
        { s with isGenerating := false, searchResults := [], searchQuery := "",
                 lastQE := none, generationStatus := "Generating brain..." } := by
    intro rp3
    rw [handleGenerateGalaxy, if_neg (by simp [hnb]), if_pos (by rw [hsort]; exact hcount)]
  refine ⟨hmain rp, ?_, ?_⟩
  · rw [hmain rp]
  · rw [hmain rp, hmain rp2]

/-- C3 counterexample: with two sentences (< 3), the generation handler
clears the prior search results, query text and query embedding even
though the request is rejected — the claim that all prior state is left
unchanged is false. -/
theorem generateUnder3ClearsSearchState :
    (sentencesOf "alpha\nbeta").length < 3 ∧
    (handleGenerateGalaxy true id (fun _ t => t) "alpha\nbeta" appStateW).searchResults ≠
      appStateW.searchResults ∧
    (handleGenerateGalaxy true id (fun _ t => t) "alpha\nbeta" appStateW).searchQuery ≠
      appStateW.searchQuery ∧
    (handleGenerateGalaxy true id (fun _ t => t) "alpha\nbeta" appStateW).lastQE ≠
      appStateW.lastQE ∧
    (handleGenerateGalaxy true id (fun _ t => t) "alpha\nbeta" appStateW).galaxyPoints =
      appStateW.galaxyPoints := by
  decide

/-- Witness for C3 (amended): the concrete two-sentence request is
rejected with exactly the predicted state. -/
theorem generateRejectsUnder3_witness :
    handleGenerateGalaxy true id (fun _ t => t) "alpha\nbeta" appStateW =
      { appStateW with isGenerating := false, searchResults := [], searchQuery := "",
                       lastQE := none, generationStatus := "Generating brain..." } :=
  (generateRejectsUnder3 id (fun _ => rfl) (fun _ t => t) (fun _ t => t)
    "alpha\nbeta" appStateW (by decide) (by decide)).1

/-- C5: clicking a point directly (no `similarity` field on the argument)
with a stored last query embedding re-ranks the results with that point
first — scored by `cos_sim` against the last query vector, all other
entries retained in order — and the scene effect then re-enters the focus
transition toward that point; with no stored embedding the handler
returns without changing anything (no re-rank, no transition, no badge). -/
theorem pointFocusRerank (cosF : List ℚ → List ℚ → ℚ) (lastE : List ℚ)
    (point : NeuronPoint) (results : List SearchResult)
    (len : Vec3 → ℚ) (isMobile : Bool) (fitPts : List NeuronPoint)
    (dv : Option (Vec3 × Vec3)) (c : CamState) (fp : NeuronPoint)
    (htext : point.text ≠ "")
    (hfind : fitPts.find? (fun q => q.text == point.text) = some fp) :
    handlePointFocus (some lastE) cosF results point none =
      some ({ toNeuronPoint := point, similarity := cosF lastE point.embedding } ::
        results.filter (fun r => r.text != point.text)) ∧
    (∀ newR, handlePointFocus (some lastE) cosF results point none = some newR →
      (sceneFocusEffect len isMobile fitPts dv newR c).shouldAnimate = true ∧
      (sceneFocusEffect len isMobile fitPts dv newR c).lookAt = fp.position) ∧
    handlePointFocus none cosF results point none = none := by
  refine ⟨rfl, ?_, rfl⟩
  intro newR hn
  have hn2 := Option.some.inj hn
  rw [← hn2]
  show (sceneFocusEffect len isMobile fitPts dv
    ({ toNeuronPoint := point, similarity := cosF lastE point.embedding } ::
      results.filter (fun r => r.text != point.text)) c).shouldAnimate = true ∧ _
  rw [sceneFocusEffect.eq_def]
  dsimp only
  rw [if_neg htext, hfind]
  exact ⟨rfl, rfl⟩

/-- Witness for C5: clicking the concrete point `pW` with a stored query
embedding re-ranks it first and raises the transition flag; with no
stored embedding nothing happens. -/
theorem pointFocusRerank_witness :
    handlePointFocus (some [1]) (fun _ _ => 0) [] pW none =
      some [{ toNeuronPoint := pW, similarity := 0 }] ∧
    (sceneFocusEffect lenW false [pW] none
      [{ toNeuronPoint := pW, similarity := 0 }] camW).shouldAnimate = true ∧
    handlePointFocus none (fun _ _ => 0) [] pW none = none := by
  have h := pointFocusRerank (fun _ _ => 0) [1] pW [] lenW false [pW] none camW pW
    (by decide) rfl
  exact ⟨h.1, (h.2.1 _ h.1).1, h.2.2⟩

/-- C6 (amended): when no brain mesh is loaded the pipeline never errors
and still yields positioned points, but not by substituting the default
ellipsoid into the fit — `fitPoints` bypasses the ellipsoid fit entirely
and passes the warped points through unchanged; the default symmetric
placement (half-extents (55,55,55)) exists only for camera framing. -/
theorem noBrainPassthrough :
    (∀ len rnd axesMargin center pts,
      fitPoints false len rnd axesMargin center pts = pts) ∧
    defaultBrainPlacement.halfSize.x = defaultBrainPlacement.halfSize.y ∧
    defaultBrainPlacement.halfSize.y = defaultBrainPlacement.halfSize.z := by
  refine ⟨fun len rnd a c pts => ?_, rfl, rfl⟩
  rw [fitPoints]
  simp

/-- C6 counterexample: with no brain mesh, `fitPoints` returns a point
unchanged even though it lies outside the default inner ellipsoid — so
no default symmetric ellipsoid is substituted into the layout, refuting
the containment reading of the claim. -/
theorem noBrainSkipsDefaultEllipsoid :
    fitPoints false lenW rndW (innerAxesMargin defaultBrainPlacement)
      (innerCenter defaultBrainPlacement) ptsOutW = ptsOutW ∧
    1 < ellipsoidNormSq (innerAxes defaultBrainPlacement)
      (innerCenter defaultBrainPlacement) ⟨0, 50, 0⟩ := by
  constructor
  · rw [fitPoints]
    simp
  · norm_num [ellipsoidNormSq, innerAxes, innerCenter, defaultBrainPlacement,
      innerScale, innerShapeAdjust, innerOffset, Vec3.neg_def, Vec3.add_def]

/-- C7 (amended): the shape warp scales the vertical axis by 1.4 and the
depth axis by 0.7; the horizontal coordinate is first scaled by 0.6 and
then pushed along the sign of the original x (random sign only at
x = 0) by 0.5·|z·0.7|^0.3; the (scaled) vertical coordinate is multiplied
by the Gaussian bulge 1 + 0.3·exp(−r²·0.5) of the distance r from the
vertical axis after the push; a point exactly on the vertical axis (x =
z = 0) bulges by exactly 30%; and the map is deterministic except for the
x = 0 tie-break. -/
theorem warpCharacterization (expF pow03 : ℚ → ℚ) (randomNeg : Bool) (p : Vec3) :
    (warpToBrainShape expF pow03 randomNeg p).z = p.z * 0.7 ∧
    (∃ sgn : ℚ, (sgn = 1 ∨ sgn = -1) ∧ (0 < p.x → sgn = 1) ∧ (p.x < 0 → sgn = -1) ∧
      (warpToBrainShape expF pow03 randomNeg p).x =
        p.x * 0.6 + sgn * 0.5 * pow03 |p.z * 0.7| ∧
      (warpToBrainShape expF pow03 randomNeg p).y =
        (p.y * 1.4) * (1 + 0.3 * expF
          (-((warpToBrainShape expF pow03 randomNeg p).x *
              (warpToBrainShape expF pow03 randomNeg p).x +
             (p.z * 0.7) * (p.z * 0.7)) * 0.5))) ∧
    (p.x ≠ 0 → warpToBrainShape expF pow03 true p = warpToBrainShape expF pow03 false p) ∧
    (p.x = 0 → p.z = 0 → pow03 0 = 0 → expF 0 = 1 →
      warpToBrainShape expF pow03 randomNeg p = ⟨0, p.y * 1.4 * 1.3, 0⟩) := by
  refine ⟨rfl, ?_, ?_, ?_⟩
  · refine ⟨(if p.x > 0 then 1 else if p.x < 0 then -1 else
      (if randomNeg then -1 else 1) : ℚ), ?_, ?_, ?_, rfl, rfl⟩
    · split_ifs <;> simp
    · intro hx
      rw [if_pos hx]
    · intro hx
      rw [if_neg (by linarith), if_pos hx]
  · intro hx
    rw [warpToBrainShape, warpToBrainShape]
    by_cases h1 : p.x > 0
    · rw [if_pos h1, if_pos h1]
    · by_cases h2 : p.x < 0
      · rw [if_neg h1, if_neg h1, if_pos h2, if_pos h2]
      · exact absurd (le_antisymm (not_lt.mp h1) (not_lt.mp h2)) hx
  · intro hx hz hpow hexp
    rw [warpToBrainShape, hx, hz]
    norm_num [hpow, hexp, Vec3.mk.injEq]

/-- C7 counterexample: at input (1, 0, 0) the push amount is zero (since
|z|^0.3 = 0), so the claim's reading — the horizontal coordinate is only
pushed by an amount proportional to |z|^0.3 — predicts x to stay 1; the
code scales x by 0.6 first and yields 0.6. -/
theorem warpOmitsLateralScale :
    (warpToBrainShape (fun _ => 1) (fun _ => 0) false ⟨1, 0, 0⟩).x = 0.6 ∧
    (warpToBrainShape (fun _ => 1) (fun _ => 0) false ⟨1, 0, 0⟩).x ≠
      (⟨1, 0, 0⟩ : Vec3).x + (if (0 : ℚ) < 1 then (1 : ℚ) else -1) * 0.5 * 0 := by
  constructor
  · norm_num [warpToBrainShape]
  · norm_num [warpToBrainShape]

/-- Witness for C7 (amended): at the axis point (0, 3, 0) with the
Gaussian and power oracles pinned at their exact values at 0, the warp
yields (0, 3·1.4·1.3, 0) — a 30% bulge — and the tie-break is the only
randomness (at x = 1 both draws agree). -/
theorem warpCharacterization_witness :
    warpToBrainShape (fun _ => 1) (fun _ => 0) true ⟨0, 3, 0⟩ =
      ⟨0, 3 * 1.4 * 1.3, 0⟩ ∧
    warpToBrainShape (fun _ => 1) (fun _ => 0) true ⟨1, 2, 3⟩ =
      warpToBrainShape (fun _ => 1) (fun _ => 0) false ⟨1, 2, 3⟩ := by
  constructor
  · exact (warpCharacterization (fun _ => 1) (fun _ => 0) true ⟨0, 3, 0⟩).2.2.2
      rfl rfl rfl rfl
  · exact (warpCharacterization (fun _ => 1) (fun _ => 0) true ⟨1, 2, 3⟩).2.2.1
      (by norm_num)

theorem add_sub_cancel_vec3 (a b : Vec3) : (a + b) - a = b := by
  obtain ⟨a1, a2, a3⟩ := a
  obtain ⟨b1, b2, b3⟩ := b
  simp only [Vec3.add_def, Vec3.sub_def, Vec3.mk.injEq]
  refine ⟨by ring, by ring, by ring⟩

theorem clampQ01_nonneg (x : ℚ) : 0 ≤ clampQ x 0 1 := le_max_left 0 _

theorem clampQ01_le_one (x : ℚ) : clampQ x 0 1 ≤ 1 :=
  max_le (by norm_num) (min_le_left 1 x)

theorem distanceAdjust_ge_one (isMobile : Bool) (textLen : ℕ) :
    1 ≤ distanceAdjust isMobile textLen := by
  rw [distanceAdjust]
  cases isMobile with
  | false => simp
  | true =>
    simp only [if_true]
    have h := clampQ01_nonneg (((textLen : ℚ) - 40) / 80)
    rw [lengthFactor]
    nlinarith

theorem desiredDist_eq (similarity : ℚ) (isMobile : Bool) (textLen : ℕ) :
    desiredDist similarity isMobile textLen =
      (20 - 14 * clampQ similarity 0 1) * distanceAdjust isMobile textLen := by
  rw [desiredDist, mapLinear, maxFocusDist, minFocusDist]
  ring

/-- C9 (amended): on a non-empty result list whose top entry matches a
fitted point, the scene effect raises the transition flag, looks at the
matched point, and places the camera target at distance
`desiredDist` from it — mapped linearly from the similarity clamped to
[0,1] (score 0 ↦ far bound 20, score 1 ↦ near bound 6), scaled by the
device/content adjustment (1 + 0.4·lengthFactor on small viewports).
The distance lies between the scaled bounds *inclusive*: the bounds are
attained exactly at clamped scores 0 and 1, not strictly avoided as the
original claim states. -/
theorem cameraFocusDistance (len : Vec3 → ℚ) (isMobile : Bool)
    (fitPts : List NeuronPoint) (dv : Option (Vec3 × Vec3))
    (top : SearchResult) (rest : List SearchResult) (c : CamState) (fp : NeuronPoint)
    (htext : top.text ≠ "")
    (hfind : fitPts.find? (fun q => q.text == top.text) = some fp)
    (hlen : IsLen len (c.camPos - c.target)) (hne : c.camPos - c.target ≠ 0) :
    (sceneFocusEffect len isMobile fitPts dv (top :: rest) c).shouldAnimate = true ∧
    (sceneFocusEffect len isMobile fitPts dv (top :: rest) c).lookAt = fp.position ∧
    normSq ((sceneFocusEffect len isMobile fitPts dv (top :: rest) c).camTargetPos -
        fp.position) =
      (desiredDist top.similarity isMobile top.text.length) ^ 2 ∧
    desiredDist top.similarity isMobile top.text.length =
      (20 - 14 * clampQ top.similarity 0 1) * distanceAdjust isMobile top.text.length ∧
    minFocusDist * distanceAdjust isMobile top.text.length ≤
      desiredDist top.similarity isMobile top.text.length ∧
    desiredDist top.similarity isMobile top.text.length ≤
      maxFocusDist * distanceAdjust isMobile top.text.length ∧
    (top.similarity ≤ 0 → desiredDist top.similarity isMobile top.text.length =
      maxFocusDist * distanceAdjust isMobile top.text.length) ∧
    (1 ≤ top.similarity → desiredDist top.similarity isMobile top.text.length =
      minFocusDist * distanceAdjust isMobile top.text.length) ∧
    1 ≤ distanceAdjust isMobile top.text.length := by
  have hscene : sceneFocusEffect len isMobile fitPts dv (top :: rest) c =
      { c with
        camTargetPos := fp.position +
          (desiredDist top.similarity isMobile top.text.length) •
            (normalize3 len (c.camPos - c.target))
        lookAt := fp.position
        shouldAnimate := true } := by
    rw [sceneFocusEffect.eq_def]
    dsimp only
    rw [if_neg htext, hfind]
  have hdist : normSq ((sceneFocusEffect len isMobile fitPts dv (top :: rest) c).camTargetPos -
      fp.position) = (desiredDist top.similarity isMobile top.text.length) ^ 2 := by
    rw [hscene]
    show normSq ((fp.position + _) - fp.position) = _
    rw [add_sub_cancel_vec3, normSq_smul, normSq_normalize3 len _ hlen hne, mul_one]
  have hadj := distanceAdjust_ge_one isMobile top.text.length
  have hc0 := clampQ01_nonneg top.similarity
  have hc1 := clampQ01_le_one top.similarity
  have heq := desiredDist_eq top.similarity isMobile top.text.length
  refine ⟨by rw [hscene], by rw [hscene], hdist, heq, ?_, ?_, ?_, ?_,  hadj⟩
  · rw [heq, minFocusDist]
    nlinarith
  · rw [heq, maxFocusDist]
    nlinarith
  · intro h
    rw [heq, maxFocusDist]
    have hcl : clampQ top.similarity 0 1 = 0 := by
      rw [clampQ, min_eq_right (by linarith), max_eq_left h]
    rw [hcl]
    ring
  · intro h
    rw [heq, minFocusDist]
    have hcl : clampQ top.similarity 0 1 = 1 := by
      rw [clampQ, min_eq_left h, max_eq_right (by norm_num)]
    rw [hcl]
    ring

/-- C9 counterexample: at similarity 1 (achievable: the query text equal
to a stored sentence has cosine similarity 1) the distance equals the
scaled near bound 6 exactly — it is not strictly between the bounds. -/
theorem focusDistanceAttainsBound :
    desiredDist 1 false 10 = minFocusDist * distanceAdjust false 10 ∧
    ¬(minFocusDist * distanceAdjust false 10 < desiredDist 1 false 10) := by
  norm_num [desiredDist, mapLinear, clampQ, distanceAdjust, minFocusDist, maxFocusDist]

/-- Witness for C9 (amended): concrete focus on the point `pW` from the
camera `camW` raises the transition flag with the distance formula. -/
theorem cameraFocusDistance_witness :
    (sceneFocusEffect lenW false [pW] none [resW] camW).shouldAnimate = true ∧
    (sceneFocusEffect lenW false [pW] none [resW] camW).lookAt = pW.position ∧
    desiredDist resW.similarity false resW.text.length =
      (20 - 14 * clampQ resW.similarity 0 1) * distanceAdjust false resW.text.length := by
  have h := cameraFocusDistance lenW false [pW] none resW [] camW pW
    (by decide) rfl
    (by norm_num [IsLen, lenW, camW, Vec3.sub_def, normSq, Vec3.mk.injEq])
    (by rw [Ne, Vec3.zero_def]; norm_num [camW, Vec3.sub_def, Vec3.mk.injEq])
  exact ⟨h.1, h.2.1, h.2.2.2.1⟩
